import Mathlib

/-!
Shallow embedding of the single-quote JSON repair engine (`preParse` and its
candidate state machine) from this repository, together with a strict JSON
grammar validator modelling `JSON.parse` acceptance. The embedding follows the
iterative list-based implementation character by character; strings are
modelled as lists of Unicode scalar values (`List Char`), with UTF-16 offsets
tracked explicitly where the source reports them to caller hooks.
-/

set_option maxRecDepth 10000

/-- The `isJSONType` string union from the source: `"array" | "field" |
`"object-value" | "value"`; the absent case (`undefined`) is `Option.none`. -/
inductive JSONType where
  | array
  | field
  | objectValue
  | value
deriving DecidableEq, Repr

/-- One parser candidate ("Guess") from the source: accumulated output text,
string/escape flags, array/object nesting counters, object field/value flags,
the JSON-type tag, and the auto-fill skip counter (`aufoFilled`, spelled as in
the source). Counters are `Int` since the source uses plain JS numbers with
unguarded increment/decrement. -/
structure Guess where
  string : List Char
  isString : Bool
  isEscaped : Bool
  isArray : Int
  isObject : Int
  isObjectField : Bool
  isObjectValue : Bool
  isJSONType : Option JSONType
  aufoFilled : Int
deriving DecidableEq, Repr

/-- The single seed candidate the scan starts from (the one element of the
initial `guesses` array in the source). -/
def initGuess : Guess :=
  { string := []
    isString := false
    isEscaped := false
    isArray := 0
    isObject := 0
    isObjectField := false
    isObjectValue := false
    isJSONType := none
    aufoFilled := 0 }

/-- The `StringPosition` context handed to caller hooks at each single-quote:
the current candidate, the substrings after and before the quote (computed
against the original input), and the UTF-16 (`stringIndex`) and scalar-value
(`characterIndex`) offsets. -/
structure StringPosition where
  currentGuess : Guess
  followingString : List Char
  precedingString : List Char
  stringIndex : Nat
  characterIndex : Nat

/-- A brute-force predicate hook: `StringPosition -> boolean`. -/
abbrev BruteForce : Type := StringPosition → Bool

/-- A heuristic hook. In the source it receives a live reference to the
current candidate inside the `StringPosition` and mutates it; the engine then
tests the truthiness of its return value. We model the call as producing the
post-mutation candidate together with that truthiness. -/
abbrev Heuristic : Type := StringPosition → Guess × Bool

/-- Number of UTF-16 code units a scalar value occupies (the `.length` of one
element of the source's `fixedWidthCharacterArray`). -/
def charUtf16Len (c : Char) : Nat :=
  if c.val ≥ 0x10000 then 2 else 1

/-- The character class of the `\s` escape in JS regular expressions, used by
the source's lookahead patterns. -/
def jsRegexWs (c : Char) : Bool :=
  c = ' ' || c = '\t' || c = '\n' || c = '\r' ||
  c.val = 0xb || c.val = 0xc || c.val = 0xa0 || c.val = 0x1680 ||
  (0x2000 ≤ c.val && c.val ≤ 0x200a) || c.val = 0x2028 || c.val = 0x2029 ||
  c.val = 0x202f || c.val = 0x205f || c.val = 0x3000 || c.val = 0xfeff

/-- Test of the source's `^\s*[delims]` pattern: optional whitespace from the
start, then one character of the delimiter class. The delimiter characters are
never whitespace, so the greedy run is exactly the maximal whitespace run. An
empty delimiter class (`[]` in JS) matches nothing. -/
def wsThenDelim (delims : List Char) (l : List Char) : Bool :=
  match l.dropWhile jsRegexWs with
  | [] => false
  | c :: _ => delims.contains c

/-- Helper for `heuristicFindValids`: walks the text keeping the run of
non-quote characters seen since the last single-quote (reversed); at each
single-quote followed by `\s*[delims]` the run is the capture group of the
leftmost match of `([^']*)'\s*[delims]`. -/
def findValidsAux (delims : List Char) : List Char → List Char → Option (List Char)
  | _, [] => none
  | run, c :: rest =>
    if c = '\'' then
      if wsThenDelim delims rest then some run.reverse
      else findValidsAux delims [] rest
    else findValidsAux delims (c :: run) rest

/-- The source's `heuristicFindValids` regex `([^']*)'\s*[delims]` executed on
the input suffix starting at the current single-quote: the capture group of
its leftmost match, i.e. the maximal apostrophe-free run immediately before
the first single-quote that is followed by optional whitespace and a
delimiter. -/
def heuristicFindValids (delims : List Char) (s : List Char) : Option (List Char) :=
  findValidsAux delims [] s

/-- The source's `possibleDelimiters` selection from the candidate's type tag
(and the `isObjectField` flag), in the source's branch order. -/
def possibleDelimiters (g : Guess) : List Char :=
  if g.isJSONType = some JSONType.array then [',', ']']
  else if g.isJSONType = some JSONType.objectValue then [',', '}']
  else if g.isJSONType = some JSONType.field || g.isObjectField then [':']
  else if g.isJSONType = some JSONType.value then [',', '}', ']']
  else []

/-- The type-tag ternary chain the source evaluates after a `}` (the
branch order of its `}` case), over the pre-update counters. -/
def tagAfterBrace (gOld : Guess) : Option JSONType :=
  if gOld.isArray = 0 ∧ gOld.isObject ≠ 0 then some JSONType.objectValue
  else if gOld.isObject = 0 ∧ gOld.isArray ≠ 0 then some JSONType.array
  else if gOld.isArray ≠ 0 ∧ gOld.isObject ≠ 0 then some JSONType.value
  else none

/-- The type-tag ternary chain the source evaluates after a `]` (the
branch order of its `]` case), over the pre-update counters. -/
def tagAfterBracket (gOld : Guess) : Option JSONType :=
  if gOld.isObject = 0 ∧ gOld.isArray ≠ 0 then some JSONType.array
  else if gOld.isArray = 0 ∧ gOld.isObject ≠ 0 then some JSONType.objectValue
  else if gOld.isArray ≠ 0 ∧ gOld.isObject ≠ 0 then some JSONType.value
  else none

/-- Structural update for a non-quote character consumed outside string
content. `g1` is the candidate with the character already appended; `gOld` is
the candidate as destructured at the top of the loop body, whose (pre-update)
counters feed the type-tag ternaries for `}` and `]`, exactly as in the
source. -/
def structuralUpdate (c : Char) (g1 gOld : Guess) : Guess :=
  if c = '{' then
    { g1 with isObjectField := true, isJSONType := some JSONType.field,
              isObject := g1.isObject + 1 }
  else if c = ':' then
    { g1 with isObjectField := false, isJSONType := some JSONType.objectValue,
              isObjectValue := true }
  else if c = '}' then
    { g1 with isObjectValue := false, isObject := g1.isObject - 1,
              isJSONType := tagAfterBrace gOld }
  else if c = '[' then
    { g1 with isArray := g1.isArray + 1, isJSONType := some JSONType.array }
  else if c = ']' then
    { g1 with isArray := g1.isArray - 1, isJSONType := tagAfterBracket gOld }
  else if gOld.isObjectValue ∧ gOld.isJSONType = some JSONType.objectValue ∧ c = ',' then
    { g1 with isObjectValue := false, isObjectField := true,
              isJSONType := some JSONType.field }
  else g1

/-- The default single-quote heuristics of the source (`isString` branch and
the string-opening `else`). `old` carries the flags as destructured before any
heuristic mutation; `gCur` is the live candidate the branch writes to. `ci` is
the scalar-value index of the quote in `input`. -/
def defaultApostrophe (th : Bool) (input : List Char) (ci : Nat) (old gCur : Guess) :
    Guess × List Guess :=
  if old.isString then
    if old.isEscaped then
      ({ gCur with isEscaped := false, string := gCur.string ++ ['\''] }, [])
    else
      let delims := possibleDelimiters old
      let hdf := !delims.isEmpty && wsThenDelim delims (input.drop (ci + 1))
      let group := (heuristicFindValids delims (input.drop ci)).getD []
      if group ≠ [] then
        ({ gCur with string := gCur.string ++ '\'' :: (group ++ ['"']),
                     aufoFilled := (group.length : Int) + 1,
                     isString := false },
         { gCur with isString := false, string := gCur.string ++ ['"'] } ::
           (if th then
              [{ gCur with isString := true, string := gCur.string ++ ['\''] }]
            else []))
      else if hdf then
        ({ gCur with string := gCur.string ++ ['"'], isString := false },
         if th then [{ gCur with isString := false, string := gCur.string ++ ['\''] }]
         else [])
      else
        ({ gCur with string := gCur.string ++ ['\''] },
         if th then [{ gCur with isString := false, string := gCur.string ++ ['\''] }]
         else [])
  else
    ({ gCur with string := gCur.string ++ ['"'], isString := true }, [])

/-- The `StringPosition` built for a hook at scalar index `ci`, UTF-16 index
`si`, for candidate `g` (current character is the single-quote, one UTF-16
unit wide, so `slice(stringIndex + 1)` is the scalar suffix after it). -/
def mkPos (input : List Char) (ci si : Nat) (g : Guess) : StringPosition :=
  { currentGuess := g
    followingString := input.drop (ci + 1)
    precedingString := input.take ci
    stringIndex := si
    characterIndex := ci }

/-- One loop-body step of the scan for a single candidate: the updated
candidate together with the list of sibling candidates it pushes (in push
order). Mirrors the source body: auto-fill skip first; non-quote characters
are appended (escape tracking inside strings, structural updates outside);
a single-quote goes through brute force, then the caller heuristic, then the
default heuristics. -/
def stepGuess (bf : Option BruteForce) (hr : Option Heuristic) (th : Bool)
    (input : List Char) (ci si : Nat) (c : Char) (g : Guess) : Guess × List Guess :=
  if g.aufoFilled ≠ 0 then
    ({ g with aufoFilled := g.aufoFilled - 1 }, [])
  else if c = '\'' then
    let pos := mkPos input ci si g
    if (bf.map (fun f => f pos)).getD false then
      ({ g with string := g.string ++ ['"'] },
       [{ g with string := g.string ++ ['\''] }])
    else
      match hr with
      | some f =>
        let r := f pos
        if r.2 then (r.1, [])
        else defaultApostrophe th input ci g r.1
      | none => defaultApostrophe th input ci g g
  else
    let g1 := { g with string := g.string ++ [c] }
    if g.isString then
      (if c = '\\' then { g1 with isEscaped := !g.isEscaped } else g1, [])
    else
      (structuralUpdate c g1 g, [])

/-- One character of the scan over the whole candidate list: the source
iterates the list in reverse index order and pushes new candidates at the end,
so every existing candidate is stepped exactly once and the pushed siblings
(which are not processed for this character) are appended grouped by
descending parent index. -/
def processChar (bf : Option BruteForce) (hr : Option Heuristic) (th : Bool)
    (input : List Char) (ci si : Nat) (c : Char) (gs : List Guess) : List Guess :=
  let stepped := gs.map (stepGuess bf hr th input ci si c)
  stepped.map Prod.fst ++ (stepped.map Prod.snd).reverse.flatten

/-- The character loop: consumes the remaining characters `l`, advancing the
scalar index `ci` and the UTF-16 index `si` as the source's `for` header
does. -/
def scanList (bf : Option BruteForce) (hr : Option Heuristic) (th : Bool)
    (input : List Char) : List Char → Nat → Nat → List Guess → List Guess
  | [], _, _, gs => gs
  | c :: rest, ci, si, gs =>
    scanList bf hr th input rest (ci + 1) (si + charUtf16Len c)
      (processChar bf hr th input ci si c gs)

/-- The full scan of an input: every candidate alive when the character loop
finishes. -/
def scanGuesses (bf : Option BruteForce) (hr : Option Heuristic) (th : Bool)
    (input : List Char) : List Guess :=
  scanList bf hr th input input 0 0 [initGuess]

/-- The candidate list after the first `n` characters of the scan — the
"points of the scan" at character granularity. -/
def stateAt (bf : Option BruteForce) (hr : Option Heuristic) (th : Bool)
    (input : List Char) (n : Nat) : List Guess :=
  scanList bf hr th input (input.take n) 0 0 [initGuess]

/-! ### Strict JSON grammar validator, modelling `JSON.parse` acceptance -/

/-- The whitespace characters `JSON.parse` skips between tokens. -/
def jsonWs (c : Char) : Bool :=
  c = ' ' || c = '\t' || c = '\n' || c = '\r'

def skipJsonWs (l : List Char) : List Char :=
  l.dropWhile jsonWs

def isHexDig (c : Char) : Bool :=
  c.isDigit || ('a' ≤ c && c ≤ 'f') || ('A' ≤ c && c ≤ 'F')

/-- Body of a JSON string after the opening quote: ordinary characters (no
control characters, no bare quote or backslash) and the JSON escape
sequences, up to the closing quote. Returns the remaining text. -/
def parseStringBody (fuel : Nat) (l : List Char) : Option (List Char) :=
  match fuel, l with
  | 0, _ => none
  | _, [] => none
  | fuel + 1, c :: rest =>
    if c = '"' then some rest
    else if c = '\\' then
      match rest with
      | [] => none
      | e :: rest2 =>
        if e = '"' || e = '\\' || e = '/' || e = 'b' || e = 'f' || e = 'n' ||
            e = 'r' || e = 't' then
          parseStringBody fuel rest2
        else if e = 'u' then
          match rest2 with
          | h1 :: h2 :: h3 :: h4 :: rest3 =>
            if isHexDig h1 && isHexDig h2 && isHexDig h3 && isHexDig h4 then
              parseStringBody fuel rest3
            else none
          | _ => none
        else none
    else if c.val < 0x20 then none
    else parseStringBody fuel rest

/-- One or more decimal digits, returning the remaining text. -/
def parseDigits (l : List Char) : Option (List Char) :=
  match l with
  | [] => none
  | c :: rest => if c.isDigit then some (rest.dropWhile Char.isDigit) else none

/-- Optional exponent part of a JSON number. -/
def parseExpPart (l : List Char) : Option (List Char) :=
  match l with
  | [] => some []
  | e :: r =>
    if e = 'e' || e = 'E' then
      match r with
      | s :: r2 => if s = '+' || s = '-' then parseDigits r2 else parseDigits r
      | [] => none
    else some l

/-- Optional fraction part, then optional exponent part, of a JSON number. -/
def parseFracExp (l : List Char) : Option (List Char) :=
  match l with
  | '.' :: r => (parseDigits r).bind parseExpPart
  | _ => parseExpPart l

/-- A JSON number: `-? (0 | [1-9][0-9]*) frac? exp?`. -/
def parseNumber (l : List Char) : Option (List Char) :=
  let l1 := match l with
    | '-' :: r => r
    | _ => l
  match l1 with
  | [] => none
  | '0' :: r => parseFracExp r
  | c :: r => if c.isDigit then parseFracExp (r.dropWhile Char.isDigit) else none

mutual

/-- A JSON value, starting at its first character (no leading whitespace). -/
def parseValue : Nat → List Char → Option (List Char)
  | 0, _ => none
  | Nat.succ fuel, l =>
    match l with
    | [] => none
    | c :: rest =>
      if c = '"' then parseStringBody (rest.length + 1) rest
      else if c = '{' then
        match skipJsonWs rest with
        | '}' :: r => some r
        | l2 => parseMembers fuel l2
      else if c = '[' then
        match skipJsonWs rest with
        | ']' :: r => some r
        | l2 => parseElements fuel l2
      else if c = 't' then
        match rest with
        | 'r' :: 'u' :: 'e' :: r => some r
        | _ => none
      else if c = 'f' then
        match rest with
        | 'a' :: 'l' :: 's' :: 'e' :: r => some r
        | _ => none
      else if c = 'n' then
        match rest with
        | 'u' :: 'l' :: 'l' :: r => some r
        | _ => none
      else if c = '-' || c.isDigit then parseNumber l
      else none

/-- Object members from the first character of a key, through the closing
brace. -/
def parseMembers : Nat → List Char → Option (List Char)
  | 0, _ => none
  | Nat.succ fuel, l =>
    match l with
    | '"' :: r =>
      match parseStringBody (r.length + 1) r with
      | none => none
      | some r2 =>
        match skipJsonWs r2 with
        | ':' :: r3 =>
          match parseValue fuel (skipJsonWs r3) with
          | none => none
          | some r4 =>
            match skipJsonWs r4 with
            | ',' :: r5 => parseMembers fuel (skipJsonWs r5)
            | '}' :: r5 => some r5
            | _ => none
        | _ => none
    | _ => none

/-- Array elements from the first character of a value, through the closing
bracket. -/
def parseElements : Nat → List Char → Option (List Char)
  | 0, _ => none
  | Nat.succ fuel, l =>
    match parseValue fuel l with
    | none => none
    | some r =>
      match skipJsonWs r with
      | ',' :: r2 => parseElements fuel (skipJsonWs r2)
      | ']' :: r2 => some r2
      | _ => none

end

/-- `JSON.parse` acceptance: optional whitespace, one JSON value, optional
whitespace, end of text. -/
def validJSON (l : List Char) : Bool :=
  match parseValue (l.length + 1) (skipJsonWs l) with
  | some rest => (skipJsonWs rest).isEmpty
  | none => false

/-- The primary entry point: run the scan, then keep, in creation order, those
candidate strings that parse as valid JSON (`successes` in the source). -/
def preParse (bf : Option BruteForce) (hr : Option Heuristic) (th : Bool)
    (input : List Char) : List (List Char) :=
  ((scanGuesses bf hr th input).map Guess.string).filter (fun s => validJSON s)

/-- The first example input of the source: `['Bob O'Rielly']`. -/
def json1 : List Char :=
  ['[', '\'', 'B', 'o', 'b', ' ', 'O', '\'', 'R', 'i', 'e', 'l', 'l', 'y', '\'', ']']

/-! ### Helper lemmas about single steps and the scan -/

lemma structuralUpdate_string (c : Char) (g1 gOld : Guess) :
    (structuralUpdate c g1 gOld).string = g1.string := by
  unfold structuralUpdate
  split_ifs <;> rfl

lemma structuralUpdate_aufoFilled (c : Char) (g1 gOld : Guess) :
    (structuralUpdate c g1 gOld).aufoFilled = g1.aufoFilled := by
  unfold structuralUpdate
  split_ifs <;> rfl

lemma structuralUpdate_isObject (c : Char) (g1 gOld : Guess) (hc : c ≠ '}') :
    (structuralUpdate c g1 gOld).isObject = g1.isObject ∨
    (structuralUpdate c g1 gOld).isObject = g1.isObject + 1 := by
  unfold structuralUpdate
  split_ifs <;> simp_all

lemma stepGuess_skip (bf : Option BruteForce) (hr : Option Heuristic) (th : Bool)
    (input : List Char) (ci si : Nat) (c : Char) (g : Guess) (h : g.aufoFilled ≠ 0) :
    stepGuess bf hr th input ci si c g = ({ g with aufoFilled := g.aufoFilled - 1 }, []) := by
  simp [stepGuess, h]

lemma stepGuess_not_quote (bf : Option BruteForce) (hr : Option Heuristic) (th : Bool)
    (input : List Char) (ci si : Nat) (c : Char) (g : Guess)
    (hc : c ≠ '\'') (ha : g.aufoFilled = 0) :
    (stepGuess bf hr th input ci si c g).1.string = g.string ++ [c] ∧
    (stepGuess bf hr th input ci si c g).1.aufoFilled = 0 ∧
    (stepGuess bf hr th input ci si c g).2 = [] := by
  unfold stepGuess
  rw [if_neg (by simp [ha]), if_neg hc]
  by_cases hs : g.isString
  · simp only [hs, if_true]
    by_cases hb : c = '\\' <;> simp [hb, ha]
  · simp [hs, structuralUpdate_string, structuralUpdate_aufoFilled, ha]

lemma processChar_singleton (bf : Option BruteForce) (hr : Option Heuristic) (th : Bool)
    (input : List Char) (ci si : Nat) (c : Char) (g : Guess) :
    processChar bf hr th input ci si c [g] =
      (stepGuess bf hr th input ci si c g).1 :: (stepGuess bf hr th input ci si c g).2 := by
  simp [processChar]

lemma mem_processChar (bf : Option BruteForce) (hr : Option Heuristic) (th : Bool)
    (input : List Char) (ci si : Nat) (c : Char) (gs : List Guess) (g' : Guess) :
    g' ∈ processChar bf hr th input ci si c gs ↔
      ∃ g ∈ gs, g' = (stepGuess bf hr th input ci si c g).1 ∨
                g' ∈ (stepGuess bf hr th input ci si c g).2 := by
  simp only [processChar, List.mem_append, List.mem_map, List.map_map, List.mem_flatten,
    List.mem_reverse, Function.comp]
  constructor
  · rintro (⟨g, hg, rfl⟩ | ⟨l, ⟨g, hg, rfl⟩, hl⟩)
    · exact ⟨g, hg, Or.inl rfl⟩
    · exact ⟨g, hg, Or.inr hl⟩
  · rintro ⟨g, hg, rfl | hl⟩
    · exact Or.inl ⟨g, hg, rfl⟩
    · exact Or.inr ⟨(stepGuess bf hr th input ci si c g).2, ⟨g, hg, rfl⟩, hl⟩

/-- Preservation of a per-candidate invariant `P` along the scan, for steps
limited to characters satisfying `Q`. -/
lemma scanList_inv (bf : Option BruteForce) (hr : Option Heuristic) (th : Bool)
    (input : List Char) (P : Guess → Prop) (Q : Char → Prop)
    (hstep : ∀ ci si c g, Q c → P g →
      P (stepGuess bf hr th input ci si c g).1 ∧
      ∀ p ∈ (stepGuess bf hr th input ci si c g).2, P p) :
    ∀ (l : List Char) (ci si : Nat) (gs : List Guess),
      (∀ c ∈ l, Q c) → (∀ g ∈ gs, P g) →
      ∀ g ∈ scanList bf hr th input l ci si gs, P g := by
  intro l
  induction l with
  | nil =>
    intro ci si gs _ hgs g hg
    exact hgs g (by simpa [scanList] using hg)
  | cons c rest ih =>
    intro ci si gs hQ hgs g hg
    rw [scanList] at hg
    refine ih (ci + 1) (si + charUtf16Len c) _
      (fun d hd => hQ d (List.mem_cons_of_mem _ hd)) ?_ g hg
    intro g0 hg0
    rcases (mem_processChar bf hr th input ci si c gs g0).mp hg0 with ⟨g1, hg1, hcase⟩
    have hQc : Q c := hQ c (List.mem_cons_self c rest)
    rcases hcase with rfl | hmem
    · exact (hstep ci si c g1 hQc (hgs g1 hg1)).1
    · exact (hstep ci si c g1 hQc (hgs g1 hg1)).2 g0 hmem

/-- Scanning a run of non-quote characters keeps a single candidate, appends
the characters to its output verbatim, and leaves the auto-fill counter at
zero. -/
lemma scanList_no_quote (bf : Option BruteForce) (hr : Option Heuristic) (th : Bool)
    (input : List Char) :
    ∀ (l : List Char) (ci si : Nat) (g : Guess),
      (∀ c ∈ l, c ≠ '\'') → g.aufoFilled = 0 →
      ∃ g', scanList bf hr th input l ci si [g] = [g'] ∧
        g'.string = g.string ++ l ∧ g'.aufoFilled = 0 := by
  intro l
  induction l with
  | nil =>
    intro ci si g _ ha
    exact ⟨g, by simp [scanList], by simp, ha⟩
  | cons c rest ih =>
    intro ci si g hl ha
    have hc : c ≠ '\'' := hl c (List.mem_cons_self c rest)
    obtain ⟨hstr, ha', hp⟩ := stepGuess_not_quote bf hr th input ci si c g hc ha
    rw [scanList, processChar_singleton, hp]
    obtain ⟨g', h1, h2, h3⟩ := ih (ci + 1) (si + charUtf16Len c)
      (stepGuess bf hr th input ci si c g).1
      (fun d hd => hl d (List.mem_cons_of_mem _ hd)) ha'
    refine ⟨g', h1, ?_, h3⟩
    rw [h2, hstr]
    simp

/-! ### Claim theorems -/

/-- Claim C2: for the input `['Bob O'Rielly']` with no brute-force predicate,
no heuristic callback, and hard-exploration disabled, the returned sequence of
valid results includes the string `["Bob O'Rielly"]`. -/
theorem preParse_json1_includes_bob :
    ['[', '"', 'B', 'o', 'b', ' ', 'O', '\'', 'R', 'i', 'e', 'l', 'l', 'y', '"', ']']
      ∈ preParse none none false json1 := by
  decide

/-- Claim C10: for the empty input string, with any hooks, exactly one
candidate is produced, its output text is the empty string, it fails JSON
validation, and the entry point returns an empty result sequence. -/
theorem preParse_empty_input (bf : Option BruteForce) (hr : Option Heuristic) (th : Bool) :
    scanGuesses bf hr th [] = [initGuess] ∧ initGuess.string = [] ∧
    validJSON [] = false ∧ preParse bf hr th [] = [] :=
  ⟨rfl, rfl, rfl, rfl⟩

/-- Claim C7 (divergence exhibited): scanning the well-formed input `{}`
leaves the type-context tag at `ObjectValue`, not `None`, although after the
closing brace both nesting counters are back to zero — the tag is computed
from the pre-decrement counters. -/
theorem tag_after_closing_brace_uses_stale_counters :
    scanGuesses none none false ['{', '}'] =
      [{ string := ['{', '}'], isString := false, isEscaped := false, isArray := 0,
         isObject := 0, isObjectField := true, isObjectValue := false,
         isJSONType := some JSONType.objectValue, aufoFilled := 0 }] ∧
    (some JSONType.objectValue : Option JSONType) ≠ none := by
  exact ⟨by decide, by decide⟩

/-- Claim C3 counterexample: `["O'Brien"]` is syntactically valid JSON whose
strings are delimited only by double quotes, yet the repair returns the empty
sequence, not a single-element sequence equal to the input (the literal
apostrophe inside the string is misread as an opening delimiter). -/
theorem preParse_not_idempotent_on_quoted_apostrophe :
    validJSON ['[', '"', 'O', '\'', 'B', 'r', 'i', 'e', 'n', '"', ']'] = true ∧
    preParse none none false ['[', '"', 'O', '\'', 'B', 'r', 'i', 'e', 'n', '"', ']'] = [] ∧
    ([] : List (List Char)) ≠ [['[', '"', 'O', '\'', 'B', 'r', 'i', 'e', 'n', '"', ']']] := by
  exact ⟨by decide, by decide, by decide⟩

/-- Claim C4 counterexample: with no brute-force predicate and a heuristic
callback that leaves the candidate untouched and returns a falsy value,
scanning the one-character input `'` still modifies the candidate (the default
heuristics replace the apostrophe with a double quote and set `isString`), so
invoking the callback is not by itself sufficient. -/
theorem heuristic_falsy_engine_still_modifies :
    scanGuesses none (some (fun p => (p.currentGuess, false))) false ['\''] =
      [{ initGuess with string := ['"'], isString := true }] ∧
    ({ initGuess with string := ['"'], isString := true } : Guess) ≠ initGuess := by
  exact ⟨by decide, by decide⟩

/-- Claim C5 counterexample: with a brute-force predicate that always answers
true, scanning the one-character input `'` pushes the sibling that keeps the
apostrophe, but the current candidate's `isString` flag stays `false` — it is
not flipped to `true` as the claim states. -/
theorem bruteForce_fork_no_inString_flip :
    scanGuesses (some (fun _ => true)) none false ['\''] =
      [{ initGuess with string := ['"'] }, { initGuess with string := ['\''] }] ∧
    ({ initGuess with string := ['"'] } : Guess).isString = false ∧
    initGuess.isString = false := by
  exact ⟨by decide, by decide, by decide⟩

/-- Claim C6 counterexample: scanning `['\n` (apostrophe opens a string, the
backslash sets the escape-pending flag) and then consuming the ordinary
character `n` appends it verbatim but leaves the escape-pending flag set — the
flag is not cleared by consuming an arbitrary next character. -/
theorem escape_not_cleared_by_ordinary_char :
    scanGuesses none none false ['[', '\'', '\\', 'n'] =
      [{ string := ['[', '"', '\\', 'n'], isString := true, isEscaped := true,
         isArray := 1, isObject := 0, isObjectField := false, isObjectValue := false,
         isJSONType := some JSONType.array, aufoFilled := 0 }] := by
  decide

/-- Claim C9 counterexample: on the input `}` the sole candidate's
object-nesting counter is `-1` after the first character of the scan. -/
theorem isObject_negative_on_unmatched_brace :
    stateAt none none false ['}'] 1 =
      [{ initGuess with string := ['}'], isObject := -1 }] ∧
    ¬ (0 : Int) ≤ -1 := by
  exact ⟨by decide, by decide⟩

/-- Claim C8 counterexample: scanning `['ab'cd'ef',1]` with no hooks, at the
second apostrophe the next-valid-quote shortcut captures `ef` (the run before
the *third* following apostrophe) and sets the auto-fill counter to 3, but the
three upcoming input characters that get skipped are `cd'` — the skipped input
slice is not the auto-filled span, so characters are lost and duplicated. -/
theorem autofill_span_mismatch_with_intervening_quote :
    stateAt none none false
        ['[', '\'', 'a', 'b', '\'', 'c', 'd', '\'', 'e', 'f', '\'', ',', '1', ']'] 5 =
      [{ initGuess with
           string := ['[', '"', 'a', 'b', '\'', 'e', 'f', '"'], isArray := 1,
           isJSONType := some JSONType.array, aufoFilled := 3 },
       { initGuess with
           string := ['[', '"', 'a', 'b', '"'], isArray := 1,
           isJSONType := some JSONType.array }] ∧
    ((['[', '\'', 'a', 'b', '\'', 'c', 'd', '\'', 'e', 'f', '\'', ',', '1', ']'].drop 5).take 3
        = ['c', 'd', '\'']) ∧
    (['e', 'f', '"'] : List Char) ≠ ['c', 'd', '"'] := by
  exact ⟨by decide, by decide, by decide⟩

/-- Claim C1: for every input string and every combination of optional hooks,
the primary entry point returns a sequence of zero or more strings each of
which parses as syntactically valid JSON, and when no candidate parses it
returns the empty sequence. -/
theorem preParse_returns_only_valid_json (bf : Option BruteForce) (hr : Option Heuristic)
    (th : Bool) (input : List Char) :
    (∀ s ∈ preParse bf hr th input, validJSON s = true) ∧
    ((∀ g ∈ scanGuesses bf hr th input, validJSON g.string = false) →
      preParse bf hr th input = []) := by
  constructor
  · intro s hs
    exact List.of_mem_filter hs
  · intro h
    apply List.filter_eq_nil_iff.mpr
    intro s hs
    obtain ⟨g, hg, rfl⟩ := List.mem_map.mp hs
    simp [h g hg]

/-- Witness for C1 at concrete inputs: `[ ]` repairs to valid JSON only, and
on `{` (whose sole candidate is invalid) the result is empty. -/
theorem preParse_returns_only_valid_json_witness :
    validJSON ['[', ']'] = true ∧ preParse none none false ['{'] = [] := by
  constructor
  · exact (preParse_returns_only_valid_json none none false ['[', ']']).1 ['[', ']'] (by decide)
  · exact (preParse_returns_only_valid_json none none false ['{']).2 (by decide)

/-- Claim C3, amended: for every input that is already syntactically valid
JSON and contains no apostrophe characters, the repair with no hooks returns a
single-element result sequence whose element equals the input unchanged. -/
theorem preParse_idempotent_no_apostrophe (input : List Char) (th : Bool)
    (hq : '\'' ∉ input) (hv : validJSON input = true) :
    preParse none none th input = [input] := by
  obtain ⟨g', hg, hs, _⟩ := scanList_no_quote none none th input input 0 0 initGuess
    (fun c hc hc' => hq (hc' ▸ hc)) rfl
  have hstr : g'.string = input := by simpa [initGuess] using hs
  unfold preParse scanGuesses
  rw [hg]
  simp [hstr, hv]

/-- Witness for the amended C3 at the concrete valid input `[]`. -/
theorem preParse_idempotent_no_apostrophe_witness :
    ('\'' ∉ (['[', ']'] : List Char)) ∧ validJSON ['[', ']'] = true ∧
    preParse none none false ['[', ']'] = [['[', ']']] :=
  ⟨by decide, by decide, preParse_idempotent_no_apostrophe ['[', ']'] false (by decide) (by decide)⟩

/-- Claim C4, amended: at an apostrophe where the brute-force predicate
declines (or is absent), a heuristic callback whose return value is truthy is
by itself sufficient — the candidate becomes exactly what the callback made
of it, the engine performs no further modification and pushes no sibling. -/
theorem heuristic_truthy_suffices (bf : Option BruteForce) (f : Heuristic) (th : Bool)
    (input : List Char) (ci si : Nat) (g g' : Guess)
    (hb : ∀ fb, bf = some fb → fb (mkPos input ci si g) = false)
    (ha : g.aufoFilled = 0)
    (hf : f (mkPos input ci si g) = (g', true)) :
    stepGuess bf (some f) th input ci si '\'' g = (g', []) := by
  have hbf : (bf.map (fun fb => fb (mkPos input ci si g))).getD false = false := by
    cases bf with
    | none => rfl
    | some fb => simpa using hb fb rfl
  unfold stepGuess
  rw [if_neg (by simp [ha]), if_pos rfl]
  simp [hbf, hf]

/-- Witness for the amended C4: a heuristic returning its candidate untouched
with a truthy flag leaves the candidate exactly as the callback did. -/
theorem heuristic_truthy_suffices_witness :
    stepGuess none (some (fun p => (p.currentGuess, true))) false ['\''] 0 0 '\'' initGuess =
      (initGuess, []) :=
  heuristic_truthy_suffices none (fun p => (p.currentGuess, true)) false ['\''] 0 0
    initGuess initGuess (fun _ h => Option.noConfusion h) rfl rfl

/-- Claim C5, amended: whenever the brute-force predicate returns true at an
apostrophe, a sibling candidate is pushed that keeps the apostrophe as literal
content with state otherwise equal to the current candidate, and the current
candidate replaces the apostrophe with a double quote with all of its other
state — including the `isString` flag — unchanged (not flipped). -/
theorem bruteForce_fork_behavior (f : BruteForce) (hr : Option Heuristic) (th : Bool)
    (input : List Char) (ci si : Nat) (g : Guess)
    (ha : g.aufoFilled = 0) (hf : f (mkPos input ci si g) = true) :
    stepGuess (some f) hr th input ci si '\'' g =
      ({ g with string := g.string ++ ['"'] }, [{ g with string := g.string ++ ['\''] }]) := by
  unfold stepGuess
  rw [if_neg (by simp [ha]), if_pos rfl]
  simp [hf]

/-- Witness for the amended C5 with an always-true predicate at input `'`. -/
theorem bruteForce_fork_behavior_witness :
    stepGuess (some (fun _ => true)) none false ['\''] 0 0 '\'' initGuess =
      ({ initGuess with string := initGuess.string ++ ['"'] },
       [{ initGuess with string := initGuess.string ++ ['\''] }]) :=
  bruteForce_fork_behavior (fun _ => true) none false ['\''] 0 0 initGuess rfl rfl

/-- Claim C6, amended: while a candidate's `inString` flag is true, a
consumed character other than an apostrophe is appended verbatim and changes
no structural state, with a backslash toggling the escape-pending flag and
every other such character leaving it unchanged (in particular an ordinary
character does not clear it); an escaped apostrophe under the default
heuristics is appended verbatim and does clear the flag. -/
theorem escape_tracking_behavior (bf : Option BruteForce) (hr : Option Heuristic) (th : Bool)
    (input : List Char) (ci si : Nat) (c : Char) (g : Guess)
    (hs : g.isString = true) (ha : g.aufoFilled = 0) :
    (c ≠ '\'' →
      stepGuess bf hr th input ci si c g =
        (if c = '\\' then { g with string := g.string ++ [c], isEscaped := !g.isEscaped }
         else { g with string := g.string ++ [c] }, [])) ∧
    (g.isEscaped = true →
      stepGuess none none th input ci si '\'' g =
        ({ g with string := g.string ++ ['\''], isEscaped := false }, [])) := by
  constructor
  · intro hc
    unfold stepGuess
    rw [if_neg (by simp [ha]), if_neg hc]
    by_cases hb : c = '\\' <;> simp [hs, hb]
  · intro he
    unfold stepGuess
    rw [if_neg (by simp [ha]), if_pos rfl]
    simp [defaultApostrophe, hs, he]

/-- Witness for the amended C6: both parts at a concrete in-string candidate
with the escape flag set, on the ordinary character `n` and on `'`. -/
theorem escape_tracking_behavior_witness :
    stepGuess none none false [] 0 0 'n'
        { initGuess with isString := true, isEscaped := true } =
      (if 'n' = '\\' then
        { { initGuess with isString := true, isEscaped := true } with
            string := { initGuess with isString := true, isEscaped := true }.string ++ ['n'],
            isEscaped := !{ initGuess with isString := true, isEscaped := true }.isEscaped }
       else
        { { initGuess with isString := true, isEscaped := true } with
            string := { initGuess with isString := true, isEscaped := true }.string ++ ['n'] },
       []) ∧
    stepGuess none none false [] 0 0 '\''
        { initGuess with isString := true, isEscaped := true } =
      ({ { initGuess with isString := true, isEscaped := true } with
           string := { initGuess with isString := true, isEscaped := true }.string ++ ['\''],
           isEscaped := false }, []) :=
  ⟨(escape_tracking_behavior none none false [] 0 0 'n'
      { initGuess with isString := true, isEscaped := true } rfl rfl).1 (by decide),
   (escape_tracking_behavior none none false [] 0 0 '\''
      { initGuess with isString := true, isEscaped := true } rfl rfl).2 rfl⟩

lemma defaultApostrophe_aufo (th : Bool) (input : List Char) (ci : Nat) (old gCur : Guess)
    (hg : 0 ≤ gCur.aufoFilled) :
    0 ≤ (defaultApostrophe th input ci old gCur).1.aufoFilled ∧
    ∀ p ∈ (defaultApostrophe th input ci old gCur).2, 0 ≤ p.aufoFilled := by
  unfold defaultApostrophe
  dsimp only
  split_ifs <;> simp_all <;> omega

lemma defaultApostrophe_isObject (th : Bool) (input : List Char) (ci : Nat) (old gCur : Guess) :
    (defaultApostrophe th input ci old gCur).1.isObject = gCur.isObject ∧
    ∀ p ∈ (defaultApostrophe th input ci old gCur).2, p.isObject = gCur.isObject := by
  unfold defaultApostrophe
  dsimp only
  split_ifs <;> simp_all

lemma structuralUpdate_isObject_ge (c : Char) (g1 gOld : Guess) (hc : c ≠ '}') :
    g1.isObject ≤ (structuralUpdate c g1 gOld).isObject := by
  unfold structuralUpdate
  split_ifs <;> simp_all

lemma stepGuess_aufo_step (bf : Option BruteForce) (th : Bool) (input : List Char)
    (ci si : Nat) (c : Char) (g : Guess) (hg : 0 ≤ g.aufoFilled) :
    0 ≤ (stepGuess bf none th input ci si c g).1.aufoFilled ∧
    ∀ p ∈ (stepGuess bf none th input ci si c g).2, 0 ≤ p.aufoFilled := by
  unfold stepGuess
  dsimp only
  split_ifs with haufo hq hbf hs hb
  · exact ⟨by dsimp only; omega, by simp⟩
  · exact ⟨hg, by intro p hp; simp only [List.mem_singleton] at hp; subst hp; exact hg⟩
  · exact defaultApostrophe_aufo th input ci g g hg
  · exact ⟨hg, by simp⟩
  · exact ⟨hg, by simp⟩
  · refine ⟨?_, by simp⟩
    rw [structuralUpdate_aufoFilled]
    exact hg

lemma stepGuess_isObject_step (bf : Option BruteForce) (th : Bool) (input : List Char)
    (ci si : Nat) (c : Char) (g : Guess) (hc : c ≠ '}') (hg : 0 ≤ g.isObject) :
    0 ≤ (stepGuess bf none th input ci si c g).1.isObject ∧
    ∀ p ∈ (stepGuess bf none th input ci si c g).2, 0 ≤ p.isObject := by
  unfold stepGuess
  dsimp only
  split_ifs with haufo hq hbf hs hb
  · exact ⟨hg, by simp⟩
  · exact ⟨hg, by intro p hp; simp only [List.mem_singleton] at hp; subst hp; exact hg⟩
  · obtain ⟨h1, h2⟩ := defaultApostrophe_isObject th input ci g g
    exact ⟨h1 ▸ hg, fun p hp => (h2 p hp) ▸ hg⟩
  · exact ⟨hg, by simp⟩
  · exact ⟨hg, by simp⟩
  · exact ⟨le_trans hg (structuralUpdate_isObject_ge c { g with string := g.string ++ [c] } g hc),
      by simp⟩

/-- Claim C9, amended: the object-nesting counter only decreases when an
unmatched closing brace is consumed, so it may transiently go negative under
malformed input (see the counterexample `}`); for every input containing no
closing brace it is greater than or equal to zero for every candidate at
every point of the scan, for any brute-force predicate and no heuristic. -/
theorem isObject_nonneg_without_closing_brace (input : List Char) (bf : Option BruteForce)
    (th : Bool) (n : Nat) (hq : '}' ∉ input) :
    ∀ g ∈ stateAt bf none th input n, 0 ≤ g.isObject := by
  intro g hg
  refine scanList_inv bf none th input (fun g => 0 ≤ g.isObject) (fun c => c ≠ '}')
    (fun ci si c g hQ hP => stepGuess_isObject_step bf th input ci si c g hQ hP)
    (input.take n) 0 0 [initGuess] ?_ ?_ g hg
  · intro c hcmem hceq
    exact hq (hceq ▸ List.take_subset n input hcmem)
  · intro g' hg'
    have : g' = initGuess := by simpa using hg'
    rw [this]
    norm_num [initGuess]

/-- Witness for the amended C9: after scanning `{`, the sole candidate's
object counter is nonnegative. -/
theorem isObject_nonneg_without_closing_brace_witness :
    ('}' ∉ (['{'] : List Char)) ∧
    0 ≤ ({ initGuess with
             string := ['{'], isObject := 1, isObjectField := true,
             isJSONType := some JSONType.field } : Guess).isObject :=
  ⟨by decide,
   isObject_nonneg_without_closing_brace ['{'] none false 1 (by decide)
     { initGuess with
         string := ['{'], isObject := 1, isObjectField := true,
         isJSONType := some JSONType.field } (by decide)⟩

/-- Claim C8, amended: the auto-fill counter is never negative across the
scan (no hooks mutating candidates), it is decremented exactly once per
skipped input character (the skip step changes nothing else and consumes the
character), and when set by the next-valid-quote shortcut it equals one plus
the length of the captured apostrophe-free run immediately preceding the next
apostrophe followed by a terminator — which is the span folded into the
output, but matches the skipped input slice only when no other apostrophe
intervenes (see the counterexample). -/
theorem autofill_counter_behavior :
    (∀ (input : List Char) (bf : Option BruteForce) (th : Bool) (n : Nat) (g : Guess),
        g ∈ stateAt bf none th input n → 0 ≤ g.aufoFilled) ∧
    (∀ (bf : Option BruteForce) (hr : Option Heuristic) (th : Bool) (input : List Char)
        (ci si : Nat) (c : Char) (g : Guess), g.aufoFilled ≠ 0 →
        stepGuess bf hr th input ci si c g = ({ g with aufoFilled := g.aufoFilled - 1 }, [])) ∧
    (∀ (th : Bool) (input : List Char) (ci si : Nat) (g : Guess) (group : List Char),
        g.isString = true → g.isEscaped = false → g.aufoFilled = 0 →
        heuristicFindValids (possibleDelimiters g) (input.drop ci) = some group →
        group ≠ [] →
        (stepGuess none none th input ci si '\'' g).1.aufoFilled = (group.length : Int) + 1 ∧
        (stepGuess none none th input ci si '\'' g).1.string =
          g.string ++ '\'' :: (group ++ ['"'])) := by
  refine ⟨?_, ?_, ?_⟩
  · intro input bf th n g hg
    refine scanList_inv bf none th input (fun g => 0 ≤ g.aufoFilled) (fun _ => True)
      (fun ci si c g _ hP => stepGuess_aufo_step bf th input ci si c g hP)
      (input.take n) 0 0 [initGuess] (fun _ _ => trivial) ?_ g hg
    intro g' hg'
    have : g' = initGuess := by simpa using hg'
    rw [this]
    norm_num [initGuess]
  · intro bf hr th input ci si c g h
    exact stepGuess_skip bf hr th input ci si c g h
  · intro th input ci si g group hs he ha hfind hne
    unfold stepGuess
    rw [if_neg (by simp [ha]), if_pos rfl]
    simp [defaultApostrophe, hs, he, hfind, hne]

/-- Witness for the amended C8: the seed candidate's counter is nonnegative;
a counter of `2` is decremented exactly once on a skipped character; and at
the second apostrophe of `['Bob O'Rielly']` the shortcut captures `Rielly`
and sets the counter to its length plus one. -/
theorem autofill_counter_behavior_witness :
    0 ≤ initGuess.aufoFilled ∧
    stepGuess none none false [] 0 0 'x' { initGuess with aufoFilled := 2 } =
      ({ initGuess with aufoFilled := 1 }, []) ∧
    ((stepGuess none none false json1 7 7 '\''
        { initGuess with
            string := ['[', '"', 'B', 'o', 'b', ' ', 'O'], isString := true, isArray := 1,
            isJSONType := some JSONType.array }).1.aufoFilled =
      ((['R', 'i', 'e', 'l', 'l', 'y'] : List Char).length : Int) + 1) :=
  ⟨autofill_counter_behavior.1 [] none false 0 initGuess (by decide),
   autofill_counter_behavior.2.1 none none false [] 0 0 'x'
     { initGuess with aufoFilled := 2 } (by decide),
   (autofill_counter_behavior.2.2 false json1 7 7
     { initGuess with
         string := ['[', '"', 'B', 'o', 'b', ' ', 'O'], isString := true, isArray := 1,
         isJSONType := some JSONType.array }
     ['R', 'i', 'e', 'l', 'l', 'y'] rfl rfl rfl (by decide) (by decide)).1⟩
